import Mathlib

/-!
Shallow embedding of the log-map repository: the server's log storage engine
(`src/server/src/storage.rs`), the snapshot codec and selection logic
(`src/server/src/snapshot.rs`), and the client replica
(`src/log-map/src/map.rs`, `src/log-map/src/sync.rs`, `src/log-map/src/cache.rs`).

Modelling conventions:
* Rust `u64`/`usize` are `Nat` (no arithmetic in the sources overflows them on
  the inputs considered; where a narrowing `as` cast matters it is written as an
  explicit `% 2^w`).
* Rust `String`/`&str` values are modelled as `List Char`; byte buffers
  (`Vec<u8>`) as `List Nat` whose elements are the byte values.
* The SQLite table `records (ordinal PRIMARY KEY AUTOINCREMENT, key, value,
  timestamp)` is the list of its rows in `ordinal` order; `SELECT MAX(ordinal)`
  is a fold, `ORDER BY ordinal` is `List.insertionSort`, and the tail-polling
  subscription loop is `subscribeAux` below.
* Fallible operations return `Option`/sum types; a Rust panic (out-of-bounds
  slice index) is a distinguished `panic` constructor.
-/

/-- A row of the `records` table (`src/src/models.rs`, `src/src/db.rs`). -/
structure Record where
  ordinal : Nat
  key : List Char
  value : List Nat
  timestamp : Int
deriving DecidableEq, Repr

/-- Result of `Storage::write`: `Ok(ordinal)` or `Err(WriteError::Conflict(latest))`
(`src/server/src/storage.rs`, lines 45-89; store/snapshot IO errors are not
modelled, the store is assumed available). -/
inductive WriteResult where
  | accepted (ordinal : Nat)
  | conflict (latest : Nat)
deriving DecidableEq, Repr

/-- Boolean test for an accepted write result. -/
def WriteResult.isAccepted : WriteResult → Bool
  | .accepted _ => true
  | .conflict _ => false

/-- The ordinal returned in a `WriteResult` (`assigned_ordinal` on the wire:
`src/server/src/grpc.rs` lines 61-75 put the accepted ordinal, or the latest
ordinal on conflict, into the response). -/
def WriteResult.ordinalOf : WriteResult → Nat
  | .accepted o => o
  | .conflict l => l

/-- The query `SELECT MAX(ordinal) as max_ord FROM records` with
`unwrap_or(0)` (`src/server/src/storage.rs` lines 54-60): the maximum ordinal
stored, `0` for an empty table. -/
def latestOrdinal (log : List Record) : Nat :=
  log.foldl (fun a r => max a r.ordinal) 0

/-- Embedding of `Storage::write` (`src/server/src/storage.rs` lines 45-89).
The client-proposed `ordinal` argument is received but never used: the insert
binds `new_ordinal = latest_ordinal + 1`.  The `INSERT ... ON CONFLICT(ordinal)
DO UPDATE` never takes its update arm here because `L + 1` exceeds every stored
ordinal, so a successful write is an append.  The snapshot side effect does not
touch the table and is modelled separately (`Storage.create_snapshot`). -/
def Storage.write (log : List Record) (_ordinal : Nat) (key : List Char)
    (value : List Nat) (latest_known : Nat) (now : Int) :
    WriteResult × List Record :=
  let latest := latestOrdinal log
  if latest_known < latest then
    (.conflict latest, log)
  else
    (.accepted (latest + 1), log ++ [⟨latest + 1, key, value, now⟩])

/-- A sequence of `Storage::write` calls applied in order; each request is
`(proposed_ordinal, key, value, latest_known, timestamp)`. -/
def Storage.writeMany (log : List Record) :
    List (Nat × List Char × List Nat × Nat × Int) → List WriteResult × List Record
  | [] => ([], log)
  | (p, k, v, lk, t) :: rest =>
    let step := Storage.write log p k v lk t
    let tail := Storage.writeMany step.2 rest
    (step.1 :: tail.1, tail.2)

/-- C1: for every call to `Storage::write` with client token `latest_known`,
where `L` is the current highest ordinal in the store (0 if empty): if
`latest_known < L` the call returns `Conflict(L)`; otherwise it persists the
record and returns `Accepted(L + 1)`, regardless of the client-proposed
ordinal argument. -/
theorem claim_C1_write_conflict_or_append
    (log : List Record) (p p' : Nat) (k : List Char) (v : List Nat)
    (lk : Nat) (t : Int) :
    (lk < latestOrdinal log →
      Storage.write log p k v lk t = (.conflict (latestOrdinal log), log)) ∧
    (latestOrdinal log ≤ lk →
      Storage.write log p k v lk t =
        (.accepted (latestOrdinal log + 1),
          log ++ [⟨latestOrdinal log + 1, k, v, t⟩])) ∧
    Storage.write log p k v lk t = Storage.write log p' k v lk t := by
  refine ⟨fun h => ?_, fun h => ?_, rfl⟩
  · simp [Storage.write, h]
  · simp [Storage.write, Nat.not_lt.mpr h]

/-- Witness for C1 at a concrete store: both branches exercised. -/
theorem claim_C1_write_conflict_or_append_witness :
    (Storage.write [⟨1, ['a'], [], 0⟩] 7 ['b'] [5] 0 3 =
      (.conflict 1, [⟨1, ['a'], [], 0⟩])) ∧
    (Storage.write [⟨1, ['a'], [], 0⟩] 7 ['b'] [5] 1 3 =
      (.accepted 2, [⟨1, ['a'], [], 0⟩, ⟨2, ['b'], [5], 3⟩])) := by
  constructor
  · exact (claim_C1_write_conflict_or_append
      [⟨1, ['a'], [], 0⟩] 7 9 ['b'] [5] 0 3).1 (by decide)
  · exact (claim_C1_write_conflict_or_append
      [⟨1, ['a'], [], 0⟩] 7 9 ['b'] [5] 1 3).2.1 (by decide)

/-- C10: whenever `Storage::write` returns `Conflict`, the log is left
completely unchanged: the conflict check precedes the insert
(`src/server/src/storage.rs` lines 54-66). -/
theorem claim_C10_conflict_leaves_log_unchanged
    (log : List Record) (p : Nat) (k : List Char) (v : List Nat)
    (lk : Nat) (t : Int) (l : Nat)
    (h : (Storage.write log p k v lk t).1 = .conflict l) :
    (Storage.write log p k v lk t).2 = log := by
  by_cases hc : lk < latestOrdinal log
  · simp [Storage.write, hc]
  · simp [Storage.write, hc] at h

/-- Witness for C10 at a concrete store. -/
theorem claim_C10_conflict_leaves_log_unchanged_witness :
    (Storage.write [⟨1, ['a'], [], 0⟩] 7 ['b'] [5] 0 3).2 =
      [⟨1, ['a'], [], 0⟩] :=
  claim_C10_conflict_leaves_log_unchanged
    [⟨1, ['a'], [], 0⟩] 7 ['b'] [5] 0 3 1 (by decide)

/-- Ordering of records by ordinal, the `ORDER BY ordinal` of the subscription
query. -/
def recordLE (a b : Record) : Prop := a.ordinal ≤ b.ordinal

instance : DecidableRel recordLE := fun a b =>
  inferInstanceAs (Decidable (a.ordinal ≤ b.ordinal))

/-- One polling round of `Storage::subscribe_from`
(`src/server/src/storage.rs` lines 113-119): the query
`SELECT ... WHERE ordinal > ? ORDER BY ordinal LIMIT 100`. -/
def queryBatch (log : List Record) (cursor : Nat) : List Record :=
  (List.insertionSort recordLE
    (log.filter (fun r => decide (cursor < r.ordinal)))).take 100

/-- The polling loop of `Storage::subscribe_from`
(`src/server/src/storage.rs` lines 106-137).  Each round emits a batch and
moves the cursor to the last emitted ordinal (the loop body assigns
`ordinal = ord` for every row, which is the fold below).  An empty batch makes
the real stream sleep and poll again; against a fixed log nothing further ever
arrives, so the emitted sequence is complete at that point and we stop.  The
fuel bounds the number of rounds; `length + 1` rounds always reach the end of a
fixed log. -/
def subscribeAux (log : List Record) (cursor : Nat) : Nat → List Record
  | 0 => []
  | fuel + 1 =>
    let batch := queryBatch log cursor
    if batch.isEmpty then []
    else batch ++ subscribeAux log (batch.foldl (fun _ r => r.ordinal) cursor) fuel

/-- Everything `Storage::subscribe_from(start)` emits against a fixed log. -/
def Storage.subscribeFrom (log : List Record) (start : Nat) : List Record :=
  subscribeAux log start (log.length + 1)

/-- The log invariant produced by accepted writes: row `i` holds ordinal
`i + 1`. -/
def canonicalLog (log : List Record) : Prop :=
  log.map (fun r => r.ordinal) = List.range' 1 log.length

theorem foldl_max_range' : ∀ (n a : Nat), (List.range' (a + 1) n).foldl max a = a + n
  | 0, a => rfl
  | n + 1, a => by
    rw [List.range'_succ]
    simpa [Nat.max_eq_right (Nat.le_succ a), Nat.add_assoc, Nat.add_comm 1 n]
      using foldl_max_range' n (a + 1)

theorem latestOrdinal_of_canonical {log : List Record} (h : canonicalLog log) :
    latestOrdinal log = log.length := by
  have : latestOrdinal log = (log.map (fun r => r.ordinal)).foldl max 0 := by
    rw [List.foldl_map]; rfl
  rw [this, h]
  simpa using foldl_max_range' log.length 0

theorem filter_gt_of_range' :
    ∀ (log : List Record) (s : Nat),
      log.map (fun r => r.ordinal) = List.range' (s + 1) log.length →
      ∀ c, log.filter (fun r => decide (c < r.ordinal)) = log.drop (c - s)
  | [], _, _, _ => by simp
  | r :: rest, s, h, c => by
    rw [List.map_cons, List.length_cons, List.range'_succ] at h
    obtain ⟨h1, h2⟩ := List.cons.injEq _ _ _ _ ▸ h
    have ih := filter_gt_of_range' rest (s + 1) h2 c
    rcases Nat.lt_or_ge c (s + 1) with hc | hc
    · have hd : decide (c < r.ordinal) = true := by
        rw [h1]; exact decide_eq_true hc
      have hcz : c - s = 0 := by omega
      have hcz2 : c - (s + 1) = 0 := by omega
      rw [List.filter_cons, hd, hcz, List.drop_zero, ih, hcz2, List.drop_zero]
      simp
    · have hd : decide (c < r.ordinal) = false := by
        rw [h1]; exact decide_eq_false (by omega)
      have hsucc : c - s = (c - (s + 1)) + 1 := by omega
      rw [List.filter_cons, hd, hsucc, List.drop_succ_cons, ih]
      simp

theorem pairwise_le_range' : ∀ (n s : Nat), (List.range' s n).Pairwise (· ≤ ·)
  | 0, _ => List.Pairwise.nil
  | n + 1, s => by
    rw [List.range'_succ]
    refine List.Pairwise.cons (fun m hm => ?_) (pairwise_le_range' n (s + 1))
    have := List.mem_range'.mp hm
    omega

theorem sorted_of_range' {log : List Record} {s : Nat}
    (h : log.map (fun r => r.ordinal) = List.range' (s + 1) log.length) :
    List.Sorted recordLE log := by
  have := pairwise_le_range' log.length (s + 1)
  rw [← h, List.pairwise_map] at this
  exact this

theorem foldl_lastOrdinal :
    ∀ (l : List Record) (a : Nat),
      l.foldl (fun _ r => r.ordinal) a = (l.map (fun r => r.ordinal)).getLastD a
  | [], _ => rfl
  | r :: rest, a => by
    rw [List.foldl_cons, List.map_cons, List.getLastD_cons]
    exact foldl_lastOrdinal rest r.ordinal

theorem getLastD_range' (s n a : Nat) (h : n ≠ 0) :
    (List.range' s n).getLastD a = s + n - 1 := by
  obtain ⟨m, rfl⟩ := Nat.exists_eq_succ_of_ne_zero h
  rw [List.range'_1_concat, List.getLastD_concat]
  omega

theorem take_min_length (n : Nat) (l : List α) :
    l.take n = l.take (min n l.length) := by
  rcases Nat.le_total n l.length with h | h
  · rw [Nat.min_eq_left h]
  · rw [Nat.min_eq_right h, List.take_of_length_le h, List.take_length]

theorem drop_range'_1 : ∀ (m s n : Nat), (List.range' s n).drop m = List.range' (s + m) (n - m)
  | 0, s, n => by simp
  | m + 1, s, 0 => by simp
  | m + 1, s, n + 1 => by
    have h1 : s + (m + 1) = s + 1 + m := by omega
    have h2 : n + 1 - (m + 1) = n - m := by omega
    rw [List.range'_succ, List.drop_succ_cons, drop_range'_1 m (s + 1) n, h1, h2]

theorem take_range'_1 : ∀ (m s n : Nat), (List.range' s n).take m = List.range' s (min m n)
  | 0, s, n => by simp
  | m + 1, s, 0 => by simp
  | m + 1, s, n + 1 => by
    rw [List.range'_succ, List.take_succ_cons, take_range'_1 m (s + 1) n,
      Nat.succ_min_succ, List.range'_succ]

theorem subscribeAux_of_canonical :
    ∀ (fuel : Nat) (log : List Record) (c : Nat), canonicalLog log →
      log.length - c ≤ fuel → subscribeAux log c fuel = log.drop c
  | 0, log, c, _, hfuel => by
    rw [subscribeAux, List.drop_eq_nil_of_le (by omega)]
  | fuel + 1, log, c, h, hfuel => by
    have hmap : log.map (fun r => r.ordinal) = List.range' (0 + 1) log.length := h
    have hfilter := filter_gt_of_range' log 0 hmap c
    rw [Nat.sub_zero] at hfilter
    have hsorted : List.Sorted recordLE (log.drop c) :=
      List.Pairwise.sublist (List.drop_sublist c log) (sorted_of_range' hmap)
    have hbatch : queryBatch log c = (log.drop c).take 100 := by
      rw [queryBatch, hfilter, List.Sorted.insertionSort_eq hsorted]
    rcases Decidable.em (log.drop c = []) with hnil | hnil
    · rw [subscribeAux]
      simp only [hbatch, hnil, List.take_nil, List.isEmpty_nil, if_true]
    · have hlen : (log.drop c).length = log.length - c := List.length_drop c log
      have hpos : 1 ≤ log.length - c := by
        rcases Nat.eq_zero_or_pos (log.length - c) with h0 | h0
        · exact absurd (List.eq_nil_of_length_eq_zero (hlen.trans h0)) hnil
        · exact h0
      have hbne : ¬ ((log.drop c).take 100).isEmpty = true := by
        rw [List.isEmpty_iff, List.take_eq_nil_iff]
        push_neg
        exact ⟨by omega, hnil⟩
      have hmapdrop : (log.drop c).map (fun r => r.ordinal)
          = List.range' (c + 1) (log.length - c) := by
        rw [List.map_drop, hmap, drop_range'_1]
        congr 1
        omega
      have hmapbatch : ((log.drop c).take 100).map (fun r => r.ordinal)
          = List.range' (c + 1) (min 100 (log.length - c)) := by
        rw [List.map_take, hmapdrop, take_range'_1]
      have hcursor : ((log.drop c).take 100).foldl (fun _ r => r.ordinal) c
          = c + min 100 (log.length - c) := by
        rw [foldl_lastOrdinal, hmapbatch, getLastD_range' _ _ _ (by omega)]
        omega
      rw [subscribeAux]
      simp only [hbatch, hbne, if_false]
      rw [hcursor,
        subscribeAux_of_canonical fuel log (c + min 100 (log.length - c)) h (by omega)]
      have htake : (log.drop c).take 100 = (log.drop c).take (min 100 (log.length - c)) := by
        rw [take_min_length, hlen]
      rw [htake]
      have hdd : log.drop (c + min 100 (log.length - c))
          = (log.drop c).drop (min 100 (log.length - c)) := by
        rw [List.drop_drop]
      rw [hdd, List.take_append_drop]
      simp

theorem writeMany_all_accepted :
    ∀ (reqs : List (Nat × List Char × List Nat × Nat × Int)) (log : List Record),
      canonicalLog log →
      (∀ r ∈ (Storage.writeMany log reqs).1, r.isAccepted = true) →
      canonicalLog (Storage.writeMany log reqs).2 ∧
      (Storage.writeMany log reqs).1
          = (List.range' (log.length + 1) reqs.length).map WriteResult.accepted ∧
      (Storage.writeMany log reqs).2.length = log.length + reqs.length
  | [], log, hc, _ => by
    refine ⟨hc, ?_, by simp [Storage.writeMany]⟩
    simp [Storage.writeMany]
  | (p, k, v, lk, t) :: rest, log, hc, hacc => by
    have hlat := latestOrdinal_of_canonical hc
    have hsplit : Storage.writeMany log ((p, k, v, lk, t) :: rest)
        = ((Storage.write log p k v lk t).1 ::
            (Storage.writeMany (Storage.write log p k v lk t).2 rest).1,
           (Storage.writeMany (Storage.write log p k v lk t).2 rest).2) := by
      simp only [Storage.writeMany]
    rcases Nat.lt_or_ge lk (latestOrdinal log) with hlt | hge
    · exfalso
      have hconf : (Storage.write log p k v lk t).1
          = .conflict (latestOrdinal log) := by
        simp only [Storage.write]
        rw [if_pos hlt]
      have hmem : (Storage.write log p k v lk t).1 ∈
          (Storage.writeMany log ((p, k, v, lk, t) :: rest)).1 := by
        rw [hsplit]
        exact List.mem_cons_self _ _
      have := hacc _ hmem
      rw [hconf] at this
      simp [WriteResult.isAccepted] at this
    · have hge' : ¬ lk < latestOrdinal log := Nat.not_lt.mpr hge
      have hstep : Storage.write log p k v lk t
          = (.accepted (log.length + 1),
             log ++ [(⟨log.length + 1, k, v, t⟩ : Record)]) := by
        simp only [Storage.write]
        rw [if_neg hge', hlat]
      rw [hstep] at hsplit
      have hc' : canonicalLog (log ++ [(⟨log.length + 1, k, v, t⟩ : Record)]) := by
        unfold canonicalLog
        rw [List.map_append, List.length_append]
        have hcc : log.map (fun r => r.ordinal) = List.range' 1 log.length := hc
        rw [hcc]
        simp [List.range'_1_concat, Nat.add_comm]
      have hacc' : ∀ r ∈
          (Storage.writeMany (log ++ [(⟨log.length + 1, k, v, t⟩ : Record)]) rest).1,
          r.isAccepted = true := by
        intro r hr
        apply hacc
        rw [hsplit]
        exact List.mem_cons_of_mem _ hr
      obtain ⟨ihc, ihres, ihlen⟩ := writeMany_all_accepted rest _ hc' hacc'
      have hlen1 : (log ++ [(⟨log.length + 1, k, v, t⟩ : Record)]).length
          = log.length + 1 := by simp
      refine ⟨?_, ?_, ?_⟩
      · rw [hsplit]
        exact ihc
      · rw [hsplit, ihres, hlen1, List.length_cons, List.range'_succ, List.map_cons]
      · rw [hsplit, ihlen, hlen1, List.length_cons]
        omega

/-- C2: for every sequence of accepted writes starting from an empty log, the
assigned ordinals are exactly 1, 2, 3, … with no gaps, and `subscribe_from s`
emits exactly the records with ordinal greater than `s`, in strictly ascending
ordinal order with no gaps and no duplicates (its ordinals are the contiguous
range `s+1, …, n`). -/
theorem claim_C2_gapless_ordinals_and_subscription
    (reqs : List (Nat × List Char × List Nat × Nat × Int))
    (hacc : ∀ r ∈ (Storage.writeMany [] reqs).1, r.isAccepted = true) (s : Nat) :
    (Storage.writeMany [] reqs).1
        = (List.range' 1 reqs.length).map WriteResult.accepted ∧
    Storage.subscribeFrom (Storage.writeMany [] reqs).2 s
        = (Storage.writeMany [] reqs).2.filter (fun r => decide (s < r.ordinal)) ∧
    (Storage.subscribeFrom (Storage.writeMany [] reqs).2 s).map (fun r => r.ordinal)
        = List.range' (s + 1) ((Storage.writeMany [] reqs).2.length - s) := by
  have hc0 : canonicalLog ([] : List Record) := by simp [canonicalLog]
  obtain ⟨hc, hres, hlen⟩ := writeMany_all_accepted reqs [] hc0 hacc
  have hmap : (Storage.writeMany [] reqs).2.map (fun r => r.ordinal)
      = List.range' (0 + 1) (Storage.writeMany [] reqs).2.length := hc
  have hsub : Storage.subscribeFrom (Storage.writeMany [] reqs).2 s
      = (Storage.writeMany [] reqs).2.drop s :=
    subscribeAux_of_canonical _ _ s hc (by omega)
  refine ⟨by simpa using hres, ?_, ?_⟩
  · rw [hsub, filter_gt_of_range' _ 0 hmap s, Nat.sub_zero]
  · rw [hsub, List.map_drop, hc, drop_range'_1]
    congr 1
    omega

/-- Witness for C2: three accepted writes, subscription from ordinal 1. -/
theorem claim_C2_gapless_ordinals_and_subscription_witness :
    (Storage.writeMany []
        [(1, ['a'], [1], 0, (0 : Int)), (2, ['b'], [], 1, 0), (3, ['a'], [2], 2, 0)]).1
      = (List.range' 1
          ([(1, ['a'], [1], 0, (0 : Int)), (2, ['b'], [], 1, 0), (3, ['a'], [2], 2, 0)]
            : List (Nat × List Char × List Nat × Nat × Int)).length).map
          WriteResult.accepted ∧
    Storage.subscribeFrom
        (Storage.writeMany []
          [(1, ['a'], [1], 0, (0 : Int)), (2, ['b'], [], 1, 0), (3, ['a'], [2], 2, 0)]).2 1
      = (Storage.writeMany []
          [(1, ['a'], [1], 0, (0 : Int)), (2, ['b'], [], 1, 0), (3, ['a'], [2], 2, 0)]).2.filter
          (fun r => decide (1 < r.ordinal)) ∧
    (Storage.subscribeFrom
        (Storage.writeMany []
          [(1, ['a'], [1], 0, (0 : Int)), (2, ['b'], [], 1, 0), (3, ['a'], [2], 2, 0)]).2 1).map
        (fun r => r.ordinal)
      = List.range' 2
          ((Storage.writeMany []
            [(1, ['a'], [1], 0, (0 : Int)), (2, ['b'], [], 1, 0), (3, ['a'], [2], 2, 0)]).2.length - 1) :=
  claim_C2_gapless_ordinals_and_subscription
    [(1, ['a'], [1], 0, (0 : Int)), (2, ['b'], [], 1, 0), (3, ['a'], [2], 2, 0)]
    (by decide) 1

/-- The four magic bytes `b"BMAP"` (`src/server/src/snapshot.rs` line 10). -/
def bmapMagic : List Nat := [66, 77, 65, 80]

/-- Little-endian bytes of `(n as u16).to_le_bytes()`. -/
def leBytes16 (n : Nat) : List Nat := [n % 256, n / 256 % 256]

/-- Little-endian bytes of `(n as u32).to_le_bytes()` (the `as u32` narrowing
is absorbed: each byte only depends on `n % 2^32`). -/
def leBytes32 (n : Nat) : List Nat :=
  [n % 256, n / 256 % 256, n / 65536 % 256, n / 16777216 % 256]

/-- `u16::from_le_bytes([b0, b1])`. -/
def leU16 (b0 b1 : Nat) : Nat := b0 + 256 * b1

/-- `u32::from_le_bytes([b0, b1, b2, b3])`. -/
def leU32 (b0 b1 b2 b3 : Nat) : Nat :=
  b0 + 256 * b1 + 65536 * b2 + 16777216 * b3

/-- One record of the bmap body (`src/server/src/snapshot.rs` lines 95-104):
`u16 key_len, key bytes, u32 value_len, value bytes`.  Keys are carried as
their UTF-8 bytes (a Rust `String` is exactly its UTF-8 byte sequence). -/
def encodeEntry (p : List Nat × List Nat) : List Nat :=
  leBytes16 p.1.length ++ p.1 ++ leBytes32 p.2.length ++ p.2

/-- The bmap bytes produced by `Snapshot::save_binary`
(`src/server/src/snapshot.rs` lines 85-108): magic, `u32` version 1, `u32`
count (`records.len() as u32`), then the encoded records. -/
def Snapshot.save_binary (records : List (List Nat × List Nat)) : List Nat :=
  bmapMagic ++ leBytes32 1 ++ leBytes32 records.length ++
    (records.map encodeEntry).flatten

/-- The record-decoding loop of the client's `SnapshotLoader::load_from_bytes`
(`src/log-map/src/sync.rs` lines 42-73): every read is preceded by a bounds
check (`offset + n > data.len()` fails with an error).  Keys pass through
`String::from_utf8_lossy`; since every key written by the encoder is the byte
sequence of a valid UTF-8 string, on which lossy decoding is the identity, the
key is modelled as the extracted byte slice itself. -/
def SnapshotLoader.decodeEntries (data : List Nat) (offset : Nat) :
    Nat → Option (List (List Nat × List Nat))
  | 0 => some []
  | count + 1 =>
    if data.length < offset + 2 then none else
    let keyLen := leU16 (data.getD offset 0) (data.getD (offset + 1) 0)
    if data.length < offset + 2 + keyLen then none else
    let key := (data.drop (offset + 2)).take keyLen
    let o2 := offset + 2 + keyLen
    if data.length < o2 + 4 then none else
    let valLen := leU32 (data.getD o2 0) (data.getD (o2 + 1) 0)
      (data.getD (o2 + 2) 0) (data.getD (o2 + 3) 0)
    if data.length < o2 + 4 + valLen then none else
    let value := (data.drop (o2 + 4)).take valLen
    match SnapshotLoader.decodeEntries data (o2 + 4 + valLen) count with
    | none => none
    | some rest => some ((key, value) :: rest)

/-- The client's `SnapshotLoader::load_from_bytes`
(`src/log-map/src/sync.rs` lines 20-76): empty input decodes to an empty list;
otherwise the header (length at least 12, magic, version 1) is verified and
the counted records are decoded with bounds checks; `none` is the `Err(String)`
outcome. -/
def SnapshotLoader.load_from_bytes (data : List Nat) :
    Option (List (List Nat × List Nat)) :=
  if data.isEmpty then some []
  else if data.length < 12 then none
  else if data.take 4 ≠ bmapMagic then none
  else if leU32 (data.getD 4 0) (data.getD 5 0) (data.getD 6 0)
      (data.getD 7 0) ≠ 1 then none
  else SnapshotLoader.decodeEntries data 12
    (leU32 (data.getD 8 0) (data.getD 9 0) (data.getD 10 0) (data.getD 11 0))

/-- Outcome of the server-side decoder `Snapshot::load_binary`: a decoded
record list, a structured error, or a Rust panic (out-of-bounds index). -/
inductive ServerDecode where
  | ok (records : List (List Nat × List Nat))
  | invalidMagic
  | invalidVersion (v : Nat)
  | panic
deriving DecidableEq, Repr

/-- The record-decoding loop of the server's `Snapshot::load_binary`
(`src/server/src/snapshot.rs` lines 145-162).  Unlike the client loop it
performs no bounds checks: `data[offset]`, `data[offset + 1]`,
`data[offset..offset + key_len]` and the value reads panic when the index or
slice end exceeds `data.len()`. -/
def Snapshot.decodeEntriesUnchecked (data : List Nat) (offset : Nat) :
    Nat → ServerDecode
  | 0 => .ok []
  | count + 1 =>
    if data.length < offset + 2 then .panic else
    let keyLen := leU16 (data.getD offset 0) (data.getD (offset + 1) 0)
    if data.length < offset + 2 + keyLen then .panic else
    let key := (data.drop (offset + 2)).take keyLen
    let o2 := offset + 2 + keyLen
    if data.length < o2 + 4 then .panic else
    let valLen := leU32 (data.getD o2 0) (data.getD (o2 + 1) 0)
      (data.getD (o2 + 2) 0) (data.getD (o2 + 3) 0)
    if data.length < o2 + 4 + valLen then .panic else
    let value := (data.drop (o2 + 4)).take valLen
    match Snapshot.decodeEntriesUnchecked data (o2 + 4 + valLen) count with
    | .ok rest => .ok ((key, value) :: rest)
    | e => e

/-- The server's `Snapshot::load_binary` applied to the bytes of the selected
bmap file (`src/server/src/snapshot.rs` lines 126-168).  The slice
`&data[0..4]` panics when the data holds fewer than 4 bytes, `data[4]..data[7]`
panic below 8 bytes, and `data[8]..data[11]` panic below 12 bytes; there is no
empty-input case and no bounds check anywhere. -/
def Snapshot.load_binary (data : List Nat) : ServerDecode :=
  if data.length < 4 then .panic
  else if data.take 4 ≠ bmapMagic then .invalidMagic
  else if data.length < 8 then .panic
  else if leU32 (data.getD 4 0) (data.getD 5 0) (data.getD 6 0)
      (data.getD 7 0) ≠ 1 then
    .invalidVersion (leU32 (data.getD 4 0) (data.getD 5 0) (data.getD 6 0)
      (data.getD 7 0))
  else if data.length < 12 then .panic
  else Snapshot.decodeEntriesUnchecked data 12
    (leU32 (data.getD 8 0) (data.getD 9 0) (data.getD 10 0) (data.getD 11 0))

/-- C4 evaluation at the failing inputs: the claim (with the spec) requires
every bmap decoder to bounds-check each read, fail cleanly on truncation, and
decode empty input to an empty record list.  The client decoder does exactly
that, but the server's `Snapshot::load_binary` panics on empty input (slice
`&data[0..4]` out of bounds) and on an 11-byte truncated header, instead of
returning an error. -/
theorem claim_C4_server_decoder_panics_on_truncation :
    Snapshot.load_binary [] = ServerDecode.panic ∧
    Snapshot.load_binary [66, 77, 65, 80, 1, 0, 0, 0, 0, 0, 0] =
      ServerDecode.panic ∧
    SnapshotLoader.load_from_bytes [] = some [] ∧
    SnapshotLoader.load_from_bytes [66, 77, 65, 80, 1, 0, 0, 0, 0, 0, 0] =
      none := by
  refine ⟨rfl, ?_, rfl, ?_⟩ <;> decide

theorem getD_append_right' :
    ∀ (l₁ l₂ : List Nat) (i d : Nat),
      (l₁ ++ l₂).getD (l₁.length + i) d = l₂.getD i d
  | [], l₂, i, d => by simp
  | x :: xs, l₂, i, d => by
    simp only [List.cons_append, List.length_cons]
    have hsh : xs.length + 1 + i = (xs.length + i) + 1 := by omega
    rw [hsh, List.getD_cons_succ]
    exact getD_append_right' xs l₂ i d

theorem getD_at (l₁ l₂ : List Nat) (n i d : Nat) (hn : n = l₁.length + i) :
    (l₁ ++ l₂).getD n d = l₂.getD i d := by
  rw [hn]
  exact getD_append_right' l₁ l₂ i d

theorem decodeEntries_encode :
    ∀ (rs : List (List Nat × List Nat)) (pre : List Nat),
      (∀ p ∈ rs, p.1.length < 65536 ∧ p.2.length < 4294967296) →
      SnapshotLoader.decodeEntries (pre ++ (rs.map encodeEntry).flatten)
        pre.length rs.length = some rs
  | [], pre, _ => by
    simp [SnapshotLoader.decodeEntries]
  | (k, v) :: rest, pre, h => by
    have hk : k.length < 65536 := (h (k, v) (List.mem_cons_self _ _)).1
    have hv : v.length < 4294967296 := (h (k, v) (List.mem_cons_self _ _)).2
    rw [List.map_cons, List.flatten_cons, List.length_cons]
    have hlenD : (pre ++ (encodeEntry (k, v) ++ (rest.map encodeEntry).flatten)).length
        = pre.length + 2 + k.length + 4 + v.length
          + ((rest.map encodeEntry).flatten).length := by
      simp [encodeEntry, leBytes16, leBytes32] <;> omega
    have hc1 : ¬ ((pre ++ (encodeEntry (k, v) ++ (rest.map encodeEntry).flatten)).length
        < pre.length + 2) := by
      rw [hlenD]; omega
    have hr0 : (pre ++ (encodeEntry (k, v) ++ (rest.map encodeEntry).flatten)).getD
        pre.length 0 = k.length % 256 := by
      rw [getD_at pre _ _ 0 0 (by omega)]
      simp [encodeEntry, leBytes16]
    have hr1 : (pre ++ (encodeEntry (k, v) ++ (rest.map encodeEntry).flatten)).getD
        (pre.length + 1) 0 = k.length / 256 % 256 := by
      rw [getD_at pre _ _ 1 0 (by omega)]
      simp [encodeEntry, leBytes16]
    have hkl : leU16
        ((pre ++ (encodeEntry (k, v) ++ (rest.map encodeEntry).flatten)).getD pre.length 0)
        ((pre ++ (encodeEntry (k, v) ++ (rest.map encodeEntry).flatten)).getD (pre.length + 1) 0)
        = k.length := by
      rw [hr0, hr1]
      simp [leU16] <;> omega
    have hc2 : ¬ ((pre ++ (encodeEntry (k, v) ++ (rest.map encodeEntry).flatten)).length
        < pre.length + 2 + k.length) := by
      rw [hlenD]; omega
    have hlen2 : (pre ++ leBytes16 k.length).length = pre.length + 2 := by
      simp [leBytes16] <;> omega
    have hDg2 : pre ++ (encodeEntry (k, v) ++ (rest.map encodeEntry).flatten)
        = (pre ++ leBytes16 k.length)
          ++ (k ++ (leBytes32 v.length ++ (v ++ (rest.map encodeEntry).flatten))) := by
      simp [encodeEntry, List.append_assoc]
    have hkey : ((pre ++ (encodeEntry (k, v) ++ (rest.map encodeEntry).flatten)).drop
        (pre.length + 2)).take k.length = k := by
      rw [hDg2, List.drop_left' hlen2, List.take_left]
    have hlenkk : (pre ++ leBytes16 k.length ++ k).length = pre.length + 2 + k.length := by
      simp [leBytes16] <;> omega
    have hDg3 : pre ++ (encodeEntry (k, v) ++ (rest.map encodeEntry).flatten)
        = (pre ++ leBytes16 k.length ++ k)
          ++ (leBytes32 v.length ++ (v ++ (rest.map encodeEntry).flatten)) := by
      simp [encodeEntry, List.append_assoc]
    have hr2 : (pre ++ (encodeEntry (k, v) ++ (rest.map encodeEntry).flatten)).getD
        (pre.length + 2 + k.length) 0 = v.length % 256 := by
      rw [hDg3, getD_at _ _ _ 0 0 (by simp [leBytes16] <;> omega)]
      simp [leBytes32]
    have hr3 : (pre ++ (encodeEntry (k, v) ++ (rest.map encodeEntry).flatten)).getD
        (pre.length + 2 + k.length + 1) 0 = v.length / 256 % 256 := by
      rw [hDg3, getD_at _ _ _ 1 0 (by simp [leBytes16] <;> omega)]
      simp [leBytes32]
    have hr4 : (pre ++ (encodeEntry (k, v) ++ (rest.map encodeEntry).flatten)).getD
        (pre.length + 2 + k.length + 2) 0 = v.length / 65536 % 256 := by
      rw [hDg3, getD_at _ _ _ 2 0 (by simp [leBytes16] <;> omega)]
      simp [leBytes32]
    have hr5 : (pre ++ (encodeEntry (k, v) ++ (rest.map encodeEntry).flatten)).getD
        (pre.length + 2 + k.length + 3) 0 = v.length / 16777216 % 256 := by
      rw [hDg3, getD_at _ _ _ 3 0 (by simp [leBytes16] <;> omega)]
      simp [leBytes32]
    have hc3 : ¬ ((pre ++ (encodeEntry (k, v) ++ (rest.map encodeEntry).flatten)).length
        < pre.length + 2 + k.length + 4) := by
      rw [hlenD]; omega
    have hvl : leU32
        ((pre ++ (encodeEntry (k, v) ++ (rest.map encodeEntry).flatten)).getD
          (pre.length + 2 + k.length) 0)
        ((pre ++ (encodeEntry (k, v) ++ (rest.map encodeEntry).flatten)).getD
          (pre.length + 2 + k.length + 1) 0)
        ((pre ++ (encodeEntry (k, v) ++ (rest.map encodeEntry).flatten)).getD
          (pre.length + 2 + k.length + 2) 0)
        ((pre ++ (encodeEntry (k, v) ++ (rest.map encodeEntry).flatten)).getD
          (pre.length + 2 + k.length + 3) 0)
        = v.length := by
      rw [hr2, hr3, hr4, hr5]
      simp [leU32] <;> omega
    have hc4 : ¬ ((pre ++ (encodeEntry (k, v) ++ (rest.map encodeEntry).flatten)).length
        < pre.length + 2 + k.length + 4 + v.length) := by
      rw [hlenD]; omega
    have hlenkv : (pre ++ leBytes16 k.length ++ k ++ leBytes32 v.length).length
        = pre.length + 2 + k.length + 4 := by
      simp [leBytes16, leBytes32] <;> omega
    have hDg4 : pre ++ (encodeEntry (k, v) ++ (rest.map encodeEntry).flatten)
        = (pre ++ leBytes16 k.length ++ k ++ leBytes32 v.length)
          ++ (v ++ (rest.map encodeEntry).flatten) := by
      simp [encodeEntry, List.append_assoc]
    have hval : ((pre ++ (encodeEntry (k, v) ++ (rest.map encodeEntry).flatten)).drop
        (pre.length + 2 + k.length + 4)).take v.length = v := by
      rw [hDg4, List.drop_left' hlenkv, List.take_left]
    have hIH := decodeEntries_encode rest (pre ++ encodeEntry (k, v))
      (fun p hp => h p (List.mem_cons_of_mem _ hp))
    have hpre : (pre ++ encodeEntry (k, v)).length
        = pre.length + 2 + k.length + 4 + v.length := by
      simp [encodeEntry, leBytes16, leBytes32] <;> omega
    have hdat : (pre ++ encodeEntry (k, v)) ++ (rest.map encodeEntry).flatten
        = pre ++ (encodeEntry (k, v) ++ (rest.map encodeEntry).flatten) := by
      simp [List.append_assoc]
    rw [hpre, hdat] at hIH
    simp only [SnapshotLoader.decodeEntries]
    rw [if_neg hc1, hkl, if_neg hc2, hkey, hvl, if_neg hc3, if_neg hc4, hval, hIH]

theorem load_from_bytes_with_header (b0 b1 b2 b3 : Nat) (body : List Nat) :
    SnapshotLoader.load_from_bytes
        (66 :: 77 :: 65 :: 80 :: 1 :: 0 :: 0 :: 0 :: b0 :: b1 :: b2 :: b3 :: body)
      = SnapshotLoader.decodeEntries
          (66 :: 77 :: 65 :: 80 :: 1 :: 0 :: 0 :: 0 :: b0 :: b1 :: b2 :: b3 :: body)
          12 (leU32 b0 b1 b2 b3) := by
  have h2 : ¬ ((66 :: 77 :: 65 :: 80 :: 1 :: 0 :: 0 :: 0 ::
      b0 :: b1 :: b2 :: b3 :: body).length < 12) := by
    simp <;> omega
  simp only [SnapshotLoader.load_from_bytes]
  rw [if_neg (by simp), if_neg h2, if_neg (by simp [bmapMagic]),
    if_neg (by simp [leU32])]
  simp

/-- C3, amended: decoding the bmap encoding of `R` yields exactly `R`, pair for
pair and in order, for every finite list `R` of (key bytes, value bytes) pairs
with each key length below `2^16`, each value length below `2^32`, and — the
amendment — fewer than `2^32` pairs (the encoder writes the count as
`records.len() as u32`, so a count of `2^32` wraps to zero). -/
theorem claim_C3_roundtrip_amended (rs : List (List Nat × List Nat))
    (hk : ∀ p ∈ rs, p.1.length < 65536)
    (hv : ∀ p ∈ rs, p.2.length < 4294967296)
    (hn : rs.length < 4294967296) :
    SnapshotLoader.load_from_bytes (Snapshot.save_binary rs) = some rs := by
  have hform : Snapshot.save_binary rs
      = 66 :: 77 :: 65 :: 80 :: 1 :: 0 :: 0 :: 0 ::
        (rs.length % 256) :: (rs.length / 256 % 256) :: (rs.length / 65536 % 256) ::
        (rs.length / 16777216 % 256) :: (rs.map encodeEntry).flatten := by
    simp [Snapshot.save_binary, bmapMagic, leBytes32]
  rw [hform, load_from_bytes_with_header]
  have hcount : leU32 (rs.length % 256) (rs.length / 256 % 256)
      (rs.length / 65536 % 256) (rs.length / 16777216 % 256) = rs.length := by
    simp [leU32] <;> omega
  rw [hcount]
  have hfin := decodeEntries_encode rs
    [66, 77, 65, 80, 1, 0, 0, 0, rs.length % 256, rs.length / 256 % 256,
      rs.length / 65536 % 256, rs.length / 16777216 % 256]
    (fun p hp => ⟨hk p hp, hv p hp⟩)
  simpa using hfin

/-- Witness for C3 (amended): the two pairs of scenario S4,
`("map:1", "x")` and `("map:-2", "")`, as UTF-8 bytes. -/
theorem claim_C3_roundtrip_amended_witness :
    SnapshotLoader.load_from_bytes
        (Snapshot.save_binary
          [([109, 97, 112, 58, 49], [120]), ([109, 97, 112, 58, 45, 50], [])])
      = some [([109, 97, 112, 58, 49], [120]), ([109, 97, 112, 58, 45, 50], [])] :=
  claim_C3_roundtrip_amended
    [([109, 97, 112, 58, 49], [120]), ([109, 97, 112, 58, 45, 50], [])]
    (by decide) (by decide) (by decide)

/-- Counterexample to C3 as stated: a list of `2^32` pairs (each with key and
value lengths within the claimed bounds) does not round-trip, because
`records.len() as u32` wraps to a stored count of zero and decoding returns the
empty list. -/
theorem claim_C3_roundtrip_cex :
    SnapshotLoader.load_from_bytes
        (Snapshot.save_binary
          (List.replicate 4294967296 (([] : List Nat), ([] : List Nat))))
      ≠ some (List.replicate 4294967296 (([] : List Nat), ([] : List Nat))) := by
  have hform : Snapshot.save_binary
        (List.replicate 4294967296 (([] : List Nat), ([] : List Nat)))
      = 66 :: 77 :: 65 :: 80 :: 1 :: 0 :: 0 :: 0 :: 0 :: 0 :: 0 :: 0 ::
        ((List.replicate 4294967296 (([] : List Nat), ([] : List Nat))).map
          encodeEntry).flatten := by
    unfold Snapshot.save_binary
    rw [List.length_replicate]
    have h1 : leBytes32 1 = [1, 0, 0, 0] := by norm_num [leBytes32]
    have h2 : leBytes32 4294967296 = [0, 0, 0, 0] := by norm_num [leBytes32]
    rw [h1, h2]
    simp only [bmapMagic, List.cons_append, List.nil_append]
  rw [hform, load_from_bytes_with_header]
  have hz : leU32 0 0 0 0 = 0 := by simp [leU32]
  rw [hz]
  simp only [SnapshotLoader.decodeEntries]
  intro hcontra
  have hinj : ([] : List (List Nat × List Nat))
      = List.replicate 4294967296 (([] : List Nat), ([] : List Nat)) :=
    Option.some.inj hcontra
  have hlen := congrArg List.length hinj
  rw [List.length_replicate, List.length_nil] at hlen
  exact absurd hlen (by omega)

/-- The UTF-8 prefix used for map keys, `"map:"` (`MAP_PREFIX` in
`src/log-map/src/sync.rs` line 14 and `src/log-map/src/map.rs` line 17, and
the `LIKE 'map:%'` pattern in `src/server/src/storage.rs` line 94). -/
def mapPrefixChars : List Char := ['m', 'a', 'p', ':']

/-- `Snapshot::should_snapshot` (`src/server/src/snapshot.rs` lines 55-65):
given the configured interval and the stored `last_snapshot_ordinal`, decide
whether to snapshot at `current`, returning the decision and the new stored
ordinal.  (`current - last` cannot underflow on the reachable inputs, where
`last` is a previously seen ordinal.) -/
def Snapshot.should_snapshot (interval last current : Nat) : Bool × Nat :=
  if current = 0 then (false, last)
  else if interval ≤ current - last then (true, current)
  else (false, last)

/-- The query `SELECT key, value FROM records WHERE key LIKE 'map:%'` of
`Storage::create_snapshot` (`src/server/src/storage.rs` lines 93-98): every
row whose key carries the map prefix, in table order — all historical versions
and tombstones included.  (SQLite `LIKE` is ASCII-case-insensitive, but every
key this system writes is lower-case, so the case-sensitive prefix test is the
reachable behaviour.) -/
def snapshotQueryRecords (log : List Record) : List (List Char × List Nat) :=
  (log.filter (fun r => mapPrefixChars.isPrefixOf r.key)).map
    (fun r => (r.key, r.value))

/-- The ordinal under which `Snapshot::save_text` and `Snapshot::save_binary`
name their files: both bind `let ordinal = records.len() as u64`
(`src/server/src/snapshot.rs` lines 72 and 86) and pass it to
`snapshot_path`. -/
def Snapshot.fileOrdinal (records : List (List Char × List Nat)) : Nat :=
  records.length

/-- Observable effect of `Storage::create_snapshot`
(`src/server/src/storage.rs` lines 91-104): the ordinal under which both the
`tmap` and the `bmap` file are written, and the record list dumped into both
files. -/
def Storage.create_snapshot (log : List Record) :
    Nat × List (List Char × List Nat) :=
  (Snapshot.fileOrdinal (snapshotQueryRecords log), snapshotQueryRecords log)

/-- Stated from the spec, for comparison: the live (non-tombstoned,
highest-ordinal-per-key) subset of the log restricted to map-prefixed keys —
what §4.3 and the glossary say a snapshot contains. -/
def liveMapSubset (log : List Record) : List (List Char × List Nat) :=
  (log.map (fun r => r.key)).dedup.filterMap (fun k =>
    if mapPrefixChars.isPrefixOf k then
      match (log.filter (fun r => decide (r.key = k))).getLast? with
      | some r => if r.value = [] then none else some (k, r.value)
      | none => none
    else none)

/-- C5 evaluation at the failing input: a log built by three accepted writes —
`("other", "v")` at ordinal 1, `("map:1", "a")` at ordinal 2, and the tombstone
`("map:1", "")` at ordinal 3.  The snapshot policy (interval 3) fires after the
accepted write at ordinal `O = 3`, but the produced snapshot holds both
historical `map:1` rows (including the tombstone) instead of the live subset
(which is empty), and both files are named under ordinal 2 (`records.len()`),
not under `O = 3 = latestOrdinal`. -/
theorem claim_C5_snapshot_dump_and_ordinal_bug :
    (Storage.writeMany []
        [(1, ['o', 't', 'h', 'e', 'r'], [118], 0, (0 : Int)),
         (2, ['m', 'a', 'p', ':', '1'], [97], 1, 0),
         (3, ['m', 'a', 'p', ':', '1'], [], 2, 0)]).1
      = [.accepted 1, .accepted 2, .accepted 3] ∧
    (Storage.writeMany []
        [(1, ['o', 't', 'h', 'e', 'r'], [118], 0, (0 : Int)),
         (2, ['m', 'a', 'p', ':', '1'], [97], 1, 0),
         (3, ['m', 'a', 'p', ':', '1'], [], 2, 0)]).2
      = [⟨1, ['o', 't', 'h', 'e', 'r'], [118], 0⟩,
         ⟨2, ['m', 'a', 'p', ':', '1'], [97], 0⟩,
         ⟨3, ['m', 'a', 'p', ':', '1'], [], 0⟩] ∧
    Snapshot.should_snapshot 3 0 3 = (true, 3) ∧
    Storage.create_snapshot
        [⟨1, ['o', 't', 'h', 'e', 'r'], [118], 0⟩,
         ⟨2, ['m', 'a', 'p', ':', '1'], [97], 0⟩,
         ⟨3, ['m', 'a', 'p', ':', '1'], [], 0⟩]
      = (2, [(['m', 'a', 'p', ':', '1'], [97]), (['m', 'a', 'p', ':', '1'], [])]) ∧
    liveMapSubset
        [⟨1, ['o', 't', 'h', 'e', 'r'], [118], 0⟩,
         ⟨2, ['m', 'a', 'p', ':', '1'], [97], 0⟩,
         ⟨3, ['m', 'a', 'p', ':', '1'], [], 0⟩]
      = [] ∧
    latestOrdinal
        [⟨1, ['o', 't', 'h', 'e', 'r'], [118], 0⟩,
         ⟨2, ['m', 'a', 'p', ':', '1'], [97], 0⟩,
         ⟨3, ['m', 'a', 'p', ':', '1'], [], 0⟩]
      = 3 := by
  refine ⟨?_, ?_, ?_, ?_, ?_, ?_⟩ <;> decide

/-- The filename parts of `snapshot_<ordinal>.<tmap|bmap>`
(`Snapshot::snapshot_path`, `src/server/src/snapshot.rs` lines 67-69, and the
suffix tests in `read_snapshot_entries`). -/
def snapshotNameStart : List Char := ['s', 'n', 'a', 'p', 's', 'h', 'o', 't', '_']

def tmapSuffixChars : List Char := ['.', 't', 'm', 'a', 'p']

def bmapSuffixChars : List Char := ['.', 'b', 'm', 'a', 'p']

/-- The numeric value of a non-empty decimal digit string, `none` on anything
else — the digit-accumulation core shared by the Rust integer parsers. -/
def decDigitsVal (cs : List Char) : Option Nat :=
  if cs ≠ [] ∧ cs.all (fun c => c.isDigit) then
    some (cs.foldl (fun a c => a * 10 + (c.toNat - 48)) 0)
  else none

/-- Rust `str::parse::<u64>()`: an optional leading `+` (a `-` fails the digit
test below, as in Rust, where even `"-0"` is an error for u64), then a
non-empty digit string whose value must fit in u64 — larger values are a
`PosOverflow` error. -/
def parseU64Digits (cs : List Char) : Option Nat :=
  let digits := match cs with
    | '+' :: rest => rest
    | _ => cs
  match decDigitsVal digits with
  | some n => if n ≤ 18446744073709551615 then some n else none
  | none => none

/-- The ordinal-parsing step of `Snapshot::read_snapshot_entries`
(`src/server/src/snapshot.rs` lines 180-182):
`strip_prefix("snapshot_")`, then `split('_').next()` — the characters before
the first underscore of the remainder — then `parse::<u64>()`. -/
def parseSnapshotOrdinal (name : List Char) : Option Nat :=
  if snapshotNameStart.isPrefixOf name then
    parseU64Digits ((name.drop 9).takeWhile (fun c => c ≠ '_'))
  else none

/-- The tmap/bmap paths selected for the latest snapshot. -/
structure SnapshotEntries where
  tmap : Option (List Char)
  bmap : Option (List Char)
deriving DecidableEq, Repr

/-- One directory entry of the `read_snapshot_entries` scan
(`src/server/src/snapshot.rs` lines 175-199), folding over
`(max_ordinal, tmap, bmap)`: an entry whose ordinal fails to parse is skipped;
a larger ordinal resets both slots; an entry at the current maximum fills the
slot of its extension. -/
def entriesStep (acc : Nat × Option (List Char) × Option (List Char))
    (name : List Char) : Nat × Option (List Char) × Option (List Char) :=
  match parseSnapshotOrdinal name with
  | none => acc
  | some ord =>
    let acc' := if acc.1 < ord then (ord, none, none) else acc
    if ord = acc'.1 then
      if tmapSuffixChars.isSuffixOf name then (acc'.1, some name, acc'.2.2)
      else if bmapSuffixChars.isSuffixOf name then (acc'.1, acc'.2.1, some name)
      else acc'
    else acc'

/-- `Snapshot::read_snapshot_entries` over the directory's file names
(`src/server/src/snapshot.rs` lines 170-202). -/
def Snapshot.read_snapshot_entries (names : List (List Char)) : SnapshotEntries :=
  let r := names.foldl entriesStep (0, none, none)
  ⟨r.2.1, r.2.2⟩

/-- C6 evaluation at the failing input: for a file named exactly as the
generator writes it (`snapshot_12.bmap`), `split('_').next()` yields
`"12.bmap"`, which does not parse as a u64, so the scan parses no ordinal at
all and selects nothing — against the claim that the maximum ordinal (12) is
kept and its bmap preferred. -/
theorem claim_C6_selection_parses_no_generated_name :
    parseSnapshotOrdinal
        ['s', 'n', 'a', 'p', 's', 'h', 'o', 't', '_', '1', '2', '.', 'b', 'm', 'a', 'p']
      = none ∧
    Snapshot.read_snapshot_entries
        [['s', 'n', 'a', 'p', 's', 'h', 'o', 't', '_', '1', '2', '.', 'b', 'm', 'a', 'p'],
         ['s', 'n', 'a', 'p', 's', 'h', 'o', 't', '_', '3', '.', 't', 'm', 'a', 'p']]
      = ⟨none, none⟩ := by
  constructor <;> decide

/-- What one iteration of the client's write loop observes
(`src/log-map/src/map.rs` lines 140-151 and 182-193): the `Write` call itself
can fail (transport), the response stream can end with no item
(`ConnectionClosed`), yield an error status, or yield a response with its
`accepted` flag. -/
inductive WriteAttempt where
  | callErr
  | noResponse
  | respErr
  | response (accepted : Bool)
deriving DecidableEq, Repr

/-- The client error type (`src/log-map/src/error.rs`). -/
inductive MapError where
  | transport
  | status
  | connectionClosed
  | conflict (n : Nat)
deriving DecidableEq, Repr

/-- Result of a modelled `insert`/`remove` call: `pending` means the finite
attempt sequence ran out while the loop would still be awaiting the server. -/
inductive CCOutcome where
  | ok
  | err (e : MapError)
  | pending
deriving DecidableEq, Repr

/-- The optimistic-CC retry loop shared verbatim by `LogMap::insert` and
`LogMap::remove` (`src/log-map/src/map.rs` lines 126-162 and 168-204), driven
by the per-attempt observations.  `retries` counts non-accepted responses;
`MAX_RETRIES = 5`; `sync_now` is a no-op and the backoff sleep does not affect
the outcome.  The advisory `next_ordinal` counter does not influence control
flow and is omitted. -/
def ccRetryLoop : List WriteAttempt → Nat → CCOutcome
  | [], _ => .pending
  | a :: rest, retries =>
    match a with
    | .callErr => .err .transport
    | .noResponse => .err .connectionClosed
    | .respErr => .err .status
    | .response true => .ok
    | .response false =>
      if 5 ≤ retries + 1 then .err (.conflict (retries + 1))
      else ccRetryLoop rest (retries + 1)

/-- `LogMap::insert` as a function of what the server interaction yields. -/
def LogMap.insert (attempts : List WriteAttempt) : CCOutcome :=
  ccRetryLoop attempts 0

/-- `LogMap::remove` — the identical loop with an empty value. -/
def LogMap.remove (attempts : List WriteAttempt) : CCOutcome :=
  ccRetryLoop attempts 0

theorem ccRetryLoop_conflict_iff :
    ∀ (attempts : List WriteAttempt) (r : Nat), r < 5 →
      ((ccRetryLoop attempts r = .err (.conflict 5) ↔
        (attempts.take (5 - r)).length = 5 - r ∧
          ∀ a ∈ attempts.take (5 - r), a = .response false) ∧
       ∀ n, ccRetryLoop attempts r = .err (.conflict n) → n = 5)
  | [], r, hr => by
    constructor
    · simp only [ccRetryLoop, List.take_nil, List.length_nil]
      constructor
      · intro h
        exact absurd h (by simp)
      · intro ⟨h1, _⟩
        omega
    · intro n h
      exact absurd h (by simp [ccRetryLoop])
  | a :: rest, r, hr => by
    obtain ⟨m, hm⟩ : ∃ m, 5 - r = m + 1 := ⟨4 - r, by omega⟩
    cases a with
    | callErr =>
      refine ⟨⟨fun h => absurd h (by simp [ccRetryLoop]), fun ⟨h1, h2⟩ => ?_⟩,
        fun n h => absurd h (by simp [ccRetryLoop])⟩
      have := h2 (.callErr) (by rw [hm, List.take_succ_cons]; exact List.mem_cons_self _ _)
      exact absurd this (by simp)
    | noResponse =>
      refine ⟨⟨fun h => absurd h (by simp [ccRetryLoop]), fun ⟨h1, h2⟩ => ?_⟩,
        fun n h => absurd h (by simp [ccRetryLoop])⟩
      have := h2 (.noResponse) (by rw [hm, List.take_succ_cons]; exact List.mem_cons_self _ _)
      exact absurd this (by simp)
    | respErr =>
      refine ⟨⟨fun h => absurd h (by simp [ccRetryLoop]), fun ⟨h1, h2⟩ => ?_⟩,
        fun n h => absurd h (by simp [ccRetryLoop])⟩
      have := h2 (.respErr) (by rw [hm, List.take_succ_cons]; exact List.mem_cons_self _ _)
      exact absurd this (by simp)
    | response acc =>
      cases acc with
      | true =>
        refine ⟨⟨fun h => absurd h (by simp [ccRetryLoop]), fun ⟨h1, h2⟩ => ?_⟩,
          fun n h => absurd h (by simp [ccRetryLoop])⟩
        have := h2 (.response true)
          (by rw [hm, List.take_succ_cons]; exact List.mem_cons_self _ _)
        exact absurd this (by simp)
      | false =>
        rcases Nat.lt_or_ge (r + 1) 5 with h5 | h5
        · have hne : ¬ (5 ≤ r + 1) := by omega
          have hunf : ccRetryLoop (WriteAttempt.response false :: rest) r
              = ccRetryLoop rest (r + 1) := by
            simp only [ccRetryLoop]
            rw [if_neg hne]
          obtain ⟨ih1, ih2⟩ := ccRetryLoop_conflict_iff rest (r + 1) h5
          have hm' : 5 - (r + 1) = m := by omega
          rw [hm'] at ih1
          constructor
          · rw [hunf, ih1, hm, List.take_succ_cons]
            constructor
            · intro ⟨h1, h2⟩
              refine ⟨by simp [h1], ?_⟩
              intro x hx
              rcases List.mem_cons.mp hx with hx | hx
              · rw [hx]
              · exact h2 x hx
            · intro ⟨h1, h2⟩
              refine ⟨by simpa using h1, ?_⟩
              intro x hx
              exact h2 x (List.mem_cons_of_mem _ hx)
          · intro n h
            rw [hunf] at h
            exact ih2 n h
        · have hr4 : r = 4 := by omega
          subst hr4
          have hunf : ccRetryLoop (WriteAttempt.response false :: rest) 4
              = .err (.conflict 5) := by
            simp [ccRetryLoop]
          constructor
          · rw [hunf]
            have hm0 : 5 - 4 = 1 := by omega
            rw [hm0, List.take_succ_cons, List.take_zero]
            simp
          · intro n h
            rw [hunf] at h
            simp at h
            omega
  termination_by attempts => attempts.length

/-- C7: an `insert` or `remove` call returns `Err(Conflict(5))` exactly when
the first five observations of its loop are non-accepted responses (so exactly
five conflicts were observed before giving up); a returned `Conflict(n)`
always has `n = 5`, so with fewer than five conflicts the call either returns
`Ok` on a later accepted response or a non-Conflict error — the individual
conflicts are invisible; and `remove` behaves identically to `insert`. -/
theorem claim_C7_retry_budget (attempts : List WriteAttempt) :
    (LogMap.insert attempts = .err (.conflict 5) ↔
      (attempts.take 5).length = 5 ∧ ∀ a ∈ attempts.take 5, a = .response false) ∧
    (∀ n, LogMap.insert attempts = .err (.conflict n) → n = 5) ∧
    LogMap.remove attempts = LogMap.insert attempts := by
  obtain ⟨h1, h2⟩ := ccRetryLoop_conflict_iff attempts 0 (by omega)
  exact ⟨h1, h2, rfl⟩

/-- Witness for C7: five rejected responses yield `Conflict(5)`; four rejected
responses followed by an accepted one yield `Ok`. -/
theorem claim_C7_retry_budget_witness :
    LogMap.insert (List.replicate 5 (.response false)) = .err (.conflict 5) ∧
    LogMap.insert
        [.response false, .response false, .response false, .response false,
         .response true] = .ok :=
  ⟨(claim_C7_retry_budget (List.replicate 5 (.response false))).1.mpr (by decide),
   by decide⟩

/-- Rust `str::parse::<i64>()`: exactly one optional sign (`+` or `-`), then a
non-empty digit string; the value must fit in i64, so an unsigned or
`+`-signed value above `2^63 - 1`, or a `-`-signed magnitude above `2^63`, is
an overflow error. -/
def parseI64 (cs : List Char) : Option Int :=
  match cs with
  | '-' :: rest =>
    match decDigitsVal rest with
    | some n => if n ≤ 9223372036854775808 then some (-(n : Int)) else none
    | none => none
  | '+' :: rest =>
    match decDigitsVal rest with
    | some n => if n ≤ 9223372036854775807 then some (n : Int) else none
    | none => none
  | _ =>
    match decDigitsVal cs with
    | some n => if n ≤ 9223372036854775807 then some (n : Int) else none
    | none => none

/-- The client-side shared state `process_record` touches: the cache and the
two atomic counters (`src/log-map/src/sync.rs` lines 79-84).  The cache maps
a parsed `i64` key to the stored value; the Rust cache stores
`String::from_utf8_lossy(value)`, a fixed pure function of the record's value
bytes applied at insertion, so the stored value is modelled by those bytes. -/
structure SyncState where
  cache : Int → Option (List Nat)
  last_sync : Nat
  latest_known : Nat

/-- `SyncTask::process_record` (`src/log-map/src/sync.rs` lines 159-174):
`strip_prefix("map:")`, parse the tail as `i64`; on success `fetch_max` both
counters with the record's ordinal, then remove the key on an empty value or
insert the value otherwise; otherwise leave everything unchanged. -/
def SyncTask.process_record (st : SyncState) (r : Record) : SyncState :=
  if mapPrefixChars.isPrefixOf r.key then
    match parseI64 (r.key.drop 4) with
    | some k =>
      { cache := fun x =>
          if x = k then (if r.value = [] then none else some r.value)
          else st.cache x
        last_sync := max st.last_sync r.ordinal
        latest_known := max st.latest_known r.ordinal }
    | none => st
  else st

/-- C9: for every record processed by the sync worker whose key is the map
prefix followed by a parseable i64 `k`: an empty value removes `k` from the
cache and a non-empty value maps `k` to the (lossily decoded) value, other
keys are untouched, and both counters advance to the record's ordinal via
`fetch_max`; a record whose tail does not parse (or without the prefix)
changes nothing; and the counters never decrease. -/
theorem claim_C9_process_record (st : SyncState) (r : Record) :
    (∀ k, mapPrefixChars.isPrefixOf r.key = true →
      parseI64 (r.key.drop 4) = some k →
      ((r.value = [] → (SyncTask.process_record st r).cache k = none) ∧
       (r.value ≠ [] → (SyncTask.process_record st r).cache k = some r.value) ∧
       (∀ x, x ≠ k → (SyncTask.process_record st r).cache x = st.cache x) ∧
       (SyncTask.process_record st r).last_sync = max st.last_sync r.ordinal ∧
       (SyncTask.process_record st r).latest_known = max st.latest_known r.ordinal)) ∧
    (mapPrefixChars.isPrefixOf r.key = true → parseI64 (r.key.drop 4) = none →
      SyncTask.process_record st r = st) ∧
    (mapPrefixChars.isPrefixOf r.key = false → SyncTask.process_record st r = st) ∧
    st.last_sync ≤ (SyncTask.process_record st r).last_sync ∧
    st.latest_known ≤ (SyncTask.process_record st r).latest_known := by
  refine ⟨?_, ?_, ?_, ?_, ?_⟩
  · intro k hpre hparse
    have hunf : SyncTask.process_record st r =
        { cache := fun x =>
            if x = k then (if r.value = [] then none else some r.value)
            else st.cache x
          last_sync := max st.last_sync r.ordinal
          latest_known := max st.latest_known r.ordinal } := by
      simp [SyncTask.process_record, hpre, hparse]
    refine ⟨?_, ?_, ?_, ?_, ?_⟩
    · intro hv
      rw [hunf]
      simp [hv]
    · intro hv
      rw [hunf]
      simp [hv]
    · intro x hx
      rw [hunf]
      simp [hx]
    · rw [hunf]
    · rw [hunf]
  · intro hpre hparse
    simp [SyncTask.process_record, hpre, hparse]
  · intro hpre
    simp [SyncTask.process_record, hpre]
  · by_cases hpre : mapPrefixChars.isPrefixOf r.key
    · cases hparse : parseI64 (r.key.drop 4) with
      | none => simp [SyncTask.process_record, hpre, hparse]
      | some k => simp [SyncTask.process_record, hpre, hparse] <;> omega
    · simp [SyncTask.process_record, hpre]
  · by_cases hpre : mapPrefixChars.isPrefixOf r.key
    · cases hparse : parseI64 (r.key.drop 4) with
      | none => simp [SyncTask.process_record, hpre, hparse]
      | some k => simp [SyncTask.process_record, hpre, hparse] <;> omega
    · simp [SyncTask.process_record, hpre]

/-- Witness for C9: the record `("map:1", "hi")` at ordinal 7 maps key 1 to
the value bytes and lifts `last_sync` from 3 to 7. -/
theorem claim_C9_process_record_witness :
    (SyncTask.process_record ⟨fun _ => none, 3, 0⟩
        ⟨7, ['m', 'a', 'p', ':', '1'], [104, 105], 0⟩).cache 1
      = some [104, 105] ∧
    (SyncTask.process_record ⟨fun _ => none, 3, 0⟩
        ⟨7, ['m', 'a', 'p', ':', '1'], [104, 105], 0⟩).last_sync = max 3 7 :=
  ⟨(((claim_C9_process_record ⟨fun _ => none, 3, 0⟩
        ⟨7, ['m', 'a', 'p', ':', '1'], [104, 105], 0⟩).1 1
      (by decide) (by decide)).2.1 (by decide)),
   ((claim_C9_process_record ⟨fun _ => none, 3, 0⟩
        ⟨7, ['m', 'a', 'p', ':', '1'], [104, 105], 0⟩).1 1
      (by decide) (by decide)).2.2.2.1⟩

/-- One item the subscription stream yields to the sync worker
(`src/log-map/src/sync.rs` lines 146-155): a record, or an error status. -/
inductive StreamItem where
  | item (r : Record)
  | errItem
deriving DecidableEq

/-- One pass of the worker's loop as the environment presents it: the outcome
of `initialize_with_snapshot` (`none` models its `Err`, `some f` the returned
snapshot ordinal), then the items its `Subscribe(f)` stream yields before
ending.  `Cache::insert_all` of the bootstrap path only touches cache
contents, which do not feed back into the control flow modelled here. -/
structure SyncSession where
  boot : Option Nat
  items : List StreamItem

/-- The inner `while let Some(result) = stream.next()` loop
(`src/log-map/src/sync.rs` lines 146-155): process records in order until the
stream ends (`false`: no error) or yields an error (`true`: the `Err` arm). -/
def consumeItems : List StreamItem → SyncState → SyncState × Bool
  | [], st => (st, false)
  | .item r :: rest, st => consumeItems rest (SyncTask.process_record st r)
  | .errItem :: _, st => (st, true)

/-- How a run of the worker can stand after the modelled sessions: still
looping (every stream so far ended cleanly), or returned `Err` (the function
terminated).  `boots` counts calls to `initialize_with_snapshot`. -/
inductive RunResult where
  | looping (st : SyncState) (boots : Nat)
  | failed (st : SyncState) (boots : Nat)

/-- `SyncTask::run` (`src/log-map/src/sync.rs` lines 134-157): an outer `loop`
that bootstraps (`?` propagates a bootstrap error out of `run`), stores the
snapshot ordinal into `last_sync`, then drains the subscription stream; a
stream error makes `run` return `Err(e)`; only a cleanly ended stream reaches
the next outer-loop iteration. -/
def SyncTask.run : List SyncSession → SyncState → Nat → RunResult
  | [], st, boots => .looping st boots
  | s :: rest, st, boots =>
    match s.boot with
    | none => .failed st (boots + 1)
    | some f =>
      let c := consumeItems s.items { st with last_sync := f }
      if c.2 then .failed c.1 (boots + 1)
      else SyncTask.run rest c.1 (boots + 1)

/-- A `run` that ended with an error. -/
def RunResult.isFailed : RunResult → Bool
  | .failed _ _ => true
  | .looping _ _ => false

/-- A session the worker survives: bootstrap succeeded and the stream ended
without an error item. -/
def cleanSession (s : SyncSession) : Prop :=
  s.boot ≠ none ∧ StreamItem.errItem ∉ s.items

/-- Counterexample to C8 as stated: a session whose stream yields an error,
with a further healthy session available.  The worker does not restart at
step 1 — `run` returns `Err` after a single bootstrap, never reaching the
second session. -/
theorem claim_C8_worker_restarts_cex :
    SyncTask.run [⟨some 0, [.errItem]⟩, ⟨some 0, []⟩] ⟨fun _ => none, 0, 0⟩ 0
      = .failed ⟨fun _ => none, 0, 0⟩ 1 := rfl

theorem consumeItems_snd_eq :
    ∀ (items : List StreamItem) (st : SyncState),
      (consumeItems items st).2 = true ↔ StreamItem.errItem ∈ items
  | [], st => by simp [consumeItems]
  | .item r :: rest, st => by
    rw [consumeItems]
    rw [consumeItems_snd_eq rest (SyncTask.process_record st r)]
    simp
  | .errItem :: rest, st => by
    simp [consumeItems]

/-- C8, amended: the sync worker's `run` ends with an error exactly when some
session fails — its bootstrap errors or its subscription stream yields an
error — after a prefix of clean sessions; it re-bootstraps (restarts at
step 1) only after a stream that ends without error.  In particular, on a
stream error it terminates rather than re-bootstrapping. -/
theorem claim_C8_worker_restarts_amended :
    ∀ (sessions : List SyncSession) (st : SyncState) (boots : Nat),
      (SyncTask.run sessions st boots).isFailed = true ↔
        ∃ pre s post, sessions = pre ++ s :: post ∧
          (∀ t ∈ pre, cleanSession t) ∧ ¬ cleanSession s
  | [], st, boots => by
    simp only [SyncTask.run, RunResult.isFailed]
    constructor
    · intro h
      exact absurd h (by simp)
    · intro ⟨pre, s, post, habs, _, _⟩
      exact absurd habs (by simp)
  | s :: rest, st, boots => by
    by_cases hclean : cleanSession s
    · obtain ⟨hboot, herr⟩ := hclean
      obtain ⟨f, hf⟩ := Option.ne_none_iff_exists'.mp hboot
      have herr2 : (consumeItems s.items { st with last_sync := f }).2 = false := by
        rw [Bool.eq_false_iff]
        intro hcontra
        exact herr ((consumeItems_snd_eq _ _).mp hcontra)
      have hstep : SyncTask.run (s :: rest) st boots
          = SyncTask.run rest (consumeItems s.items { st with last_sync := f }).1
              (boots + 1) := by
        rw [SyncTask.run, hf]
        simp only [herr2, Bool.false_eq_true, if_false]
      rw [hstep, claim_C8_worker_restarts_amended rest _ (boots + 1)]
      constructor
      · intro ⟨pre, s', post, hdec, hpre, hbad⟩
        exact ⟨s :: pre, s', post, by rw [hdec, List.cons_append], by
          intro t ht
          rcases List.mem_cons.mp ht with ht | ht
          · rw [ht]; exact ⟨hboot, herr⟩
          · exact hpre t ht, hbad⟩
      · intro ⟨pre, s', post, hdec, hpre, hbad⟩
        cases pre with
        | nil =>
          rw [List.nil_append] at hdec
          obtain ⟨h1, h2⟩ := List.cons.injEq _ _ _ _ ▸ hdec
          exact absurd (h1 ▸ ⟨hboot, herr⟩) hbad
        | cons a pre' =>
          rw [List.cons_append] at hdec
          obtain ⟨h1, h2⟩ := List.cons.injEq _ _ _ _ ▸ hdec
          exact ⟨pre', s', post, h2, fun t ht => hpre t (List.mem_cons_of_mem _ ht),
            hbad⟩
    · have hfail : (SyncTask.run (s :: rest) st boots).isFailed = true := by
        rw [SyncTask.run]
        cases hb : s.boot with
        | none => rfl
        | some f =>
          have herr : StreamItem.errItem ∈ s.items := by
            by_contra hcontra
            exact hclean ⟨by rw [hb]; exact Option.noConfusion, hcontra⟩
          have : (consumeItems s.items { st with last_sync := f }).2 = true :=
            (consumeItems_snd_eq _ _).mpr herr
          simp only [this, if_true]
          rfl
      rw [hfail]
      constructor
      · intro _
        exact ⟨[], s, rest, rfl, by simp, hclean⟩
      · intro _
        rfl

/-- Witness for C8 (amended): a failed bootstrap makes `run` end with an
error. -/
theorem claim_C8_worker_restarts_amended_witness :
    (SyncTask.run [⟨none, []⟩] ⟨fun _ => none, 0, 0⟩ 0).isFailed = true :=
  (claim_C8_worker_restarts_amended [⟨none, []⟩] ⟨fun _ => none, 0, 0⟩ 0).mpr
    ⟨[], ⟨none, []⟩, [], rfl, by simp, fun h => h.1 rfl⟩
